import Mathlib

/-!
Verification of the statistical query engine of the Stroke-Data-Analytics
repository: a shallow embedding of dataset_module.py (loader) and
query_module.py (filter engine, statistics primitives, query catalog),
with the spec claims settled as theorems.  Python floats are embedded as
exact rationals, Python round as round-half-to-even on rationals, and the
CSV export side effect as an explicit trace of (filename, payload) events.
-/

/-- Values stored in a record cell: Python int, float (as an exact rational),
string, or the missing marker None. -/
inductive Value where
  | vint : Int → Value
  | vfloat : ℚ → Value
  | vstr : String → Value
  | missing : Value
deriving DecidableEq, Repr

/-- Python equality between two cell values: an int and a float compare by
numeric value, strings compare by content, None equals only None, and any
other cross-type comparison is false. -/
def Value.pyEq : Value → Value → Bool
  | .vint a, .vint b => a == b
  | .vint a, .vfloat b => (a : ℚ) == b
  | .vfloat a, .vint b => a == (b : ℚ)
  | .vfloat a, .vfloat b => a == b
  | .vstr a, .vstr b => a == b
  | .missing, .missing => true
  | _, _ => false

/-- One dataset record: a field-name to value mapping, as an association list. -/
abbrev Record := List (String × Value)

/-- Lookup of a field on a record, modelling the Python record.get call,
which yields None both for an absent key and for a stored None. -/
def Record.get (r : Record) (k : String) : Value :=
  match r.find? (fun p => p.1 == k) with
  | some kv => kv.2
  | none => .missing

/-- Embedding of the helper named underscore-filter-data in query_module.py:
keep the records on which every (field, value) condition holds under Python
equality; a falsy (empty) condition mapping returns the data unchanged. -/
def _filter_data (data : List Record) (conditions : List (String × Value)) : List Record :=
  if conditions = [] then data
  else data.filter (fun r => conditions.all (fun kv => (Record.get r kv.1).pyEq kv.2))

/-- Embedding of the helper that extracts the numeric values of a feature
from the (optionally filtered) records: a value is kept exactly when its
runtime type is int or float, both embedded into the rationals. -/
def _get_numeric_values (data : List Record) (feature : String)
    (conditions : Option (List (String × Value))) : List ℚ :=
  let rows := match conditions with
    | some c => _filter_data data c
    | none => data
  rows.filterMap (fun r =>
    match Record.get r feature with
    | .vint n => some ((n : ℚ))
    | .vfloat q => some q
    | _ => none)

/-- Round-half-to-even of a rational (or real) to the nearest integer,
the rounding employed by the Python round builtin. -/
def rhe {α : Type} [LinearOrderedField α] [FloorRing α] (q : α) : ℤ :=
  if Int.fract q < 1 / 2 then ⌊q⌋
  else if 1 / 2 < Int.fract q then ⌊q⌋ + 1
  else if ⌊q⌋ % 2 = 0 then ⌊q⌋ else ⌊q⌋ + 1

/-- Rounding to 2 decimal places, modelling the Python round(x, 2) calls. -/
def round2 {α : Type} [LinearOrderedField α] [FloorRing α] (q : α) : α :=
  ((rhe (q * 100) : ℤ) : α) / 100

/-- Ascending sort of a rational list, modelling the Python sorted builtin. -/
def sortAsc (l : List ℚ) : List ℚ :=
  l.insertionSort (· ≤ ·)

/-- Minimum of a nonempty list, modelling the Python min builtin
(the default on the empty list is never reached by the guarded callers). -/
def pymin (l : List ℚ) : ℚ :=
  match l with
  | [] => 0
  | x :: xs => xs.foldl min x

/-- Maximum of a nonempty list, modelling the Python max builtin. -/
def pymax (l : List ℚ) : ℚ :=
  match l with
  | [] => 0
  | x :: xs => xs.foldl max x

/-- Embedding of the mean helper of query_module.py. -/
def _calculate_mean (numbers : List ℚ) : Option ℚ :=
  if numbers = [] then none
  else some (round2 (numbers.sum / (numbers.length : ℚ)))

/-- Value of the median on an already sorted nonempty list: the middle
element, or the average of the two central elements for even length. -/
def medianVal (s : List ℚ) : ℚ :=
  let mid := s.length / 2
  if s.length % 2 = 0 then (s.getD (mid - 1) 0 + s.getD mid 0) / 2
  else s.getD mid 0

/-- Embedding of the median helper of query_module.py. -/
def _calculate_median (numbers : List ℚ) : Option ℚ :=
  if numbers = [] then none
  else some (round2 (medianVal (sortAsc numbers)))

/-- Embedding of the mode helper of query_module.py: drop null entries,
count occurrences of each distinct value, and return the ascending-sorted
list of the values attaining the maximum count. -/
def _calculate_mode (items : List (Option ℚ)) : List ℚ :=
  let valid := items.filterMap id
  if valid = [] then []
  else
    let distinct := valid.dedup
    let maxCount := (distinct.map (fun v => valid.count v)).foldl max 0
    (distinct.filter (fun v => valid.count v = maxCount)).insertionSort (· ≤ ·)

/-- Embedding of the sample standard deviation helper of query_module.py:
none for fewer than 2 elements, else the rounded square root of the
variance over n minus 1, against the supplied or freshly computed mean. -/
noncomputable def _calculate_std_dev (numbers : List ℚ) (meanVal : Option ℚ) : Option ℝ :=
  if numbers = [] ∨ numbers.length < 2 then none
  else
    let m : ℚ := meanVal.getD ((_calculate_mean numbers).getD 0)
    let variance : ℚ := (numbers.map (fun x => (x - m) ^ 2)).sum / ((numbers.length : ℚ) - 1)
    some (round2 (Real.sqrt ((variance : ℚ) : ℝ)))

/-- Value of the linear-interpolation percentile on an already sorted
nonempty list: fractional rank k, exact element when k is integral, else
the interpolation between the floor and ceiling index elements. -/
def percentileVal (s : List ℚ) (p : ℚ) : ℚ :=
  let k : ℚ := ((s.length : ℚ) - 1) * (p / 100)
  let f : ℤ := ⌊k⌋
  let c : ℤ := ⌈k⌉
  if f = c then s.getD (⌊k⌋).toNat 0
  else s.getD f.toNat 0 * ((c : ℚ) - k) + s.getD c.toNat 0 * (k - (f : ℚ))

/-- Embedding of the percentile helper of query_module.py. -/
def _calculate_percentile (numbers : List ℚ) (p : ℚ) : Option ℚ :=
  if numbers = [] ∨ ¬(0 ≤ p ∧ p ≤ 100) then none
  else some (round2 (percentileVal (sortAsc numbers) p))

/-- Trimming of leading and trailing whitespace, modelling the Python
strip method (written over the character list so that every proof can
evaluate it). -/
def pytrim (s : String) : String :=
  String.mk (((s.data.dropWhile Char.isWhitespace).reverse.dropWhile
    Char.isWhitespace).reverse)

/-- Splitting of a character list at every comma; the final accumulator
always contributes a segment, so the empty input yields one empty
segment, as the Python split method does. -/
def splitCommaAux : List Char → List Char → List (List Char)
  | [], acc => [acc.reverse]
  | c :: cs, acc =>
      if c = ',' then acc.reverse :: splitCommaAux cs []
      else splitCommaAux cs (c :: acc)

/-- Splitting of a string on the comma delimiter, modelling the Python
split method with a comma separator. -/
def pysplitComma (s : String) : List String :=
  (splitCommaAux s.data []).map String.mk

/-- Numeric value of a list of decimal digit characters. -/
def digitsVal (cs : List Char) : Nat :=
  cs.foldl (fun a c => a * 10 + (c.toNat - 48)) 0

/-- Parsing of a decimal integer literal with an optional sign, modelling
the Python int constructor applied to an already stripped string. -/
def parseIntQ (s : String) : Option Int :=
  match s.data with
  | [] => none
  | '-' :: rest =>
      if rest ≠ [] ∧ rest.all Char.isDigit then some (-(digitsVal rest : Int)) else none
  | '+' :: rest =>
      if rest ≠ [] ∧ rest.all Char.isDigit then some ((digitsVal rest : Int)) else none
  | cs =>
      if cs.all Char.isDigit then some ((digitsVal cs : Int)) else none

/-- Parsing of an unsigned mantissa: digits with at most one decimal point
and at least one digit overall. -/
def parseMantissaQ (cs : List Char) : Option ℚ :=
  match cs.splitOn '.' with
  | [ip] =>
      if ip ≠ [] ∧ ip.all Char.isDigit then some ((digitsVal ip : ℚ)) else none
  | [ip, fp] =>
      if (ip ≠ [] ∨ fp ≠ []) ∧ ip.all Char.isDigit ∧ fp.all Char.isDigit then
        some ((digitsVal ip : ℚ) + (digitsVal fp : ℚ) / ((10 : ℚ) ^ fp.length))
      else none
  | _ => none

/-- Parsing of an unsigned floating-point literal with optional exponent. -/
def parseFloatCoreQ (cs : List Char) : Option ℚ :=
  match cs.findIdx? (fun c => c == 'e' || c == 'E') with
  | none => parseMantissaQ cs
  | some i =>
      match parseMantissaQ (cs.take i), parseIntQ (String.mk (cs.drop (i + 1))) with
      | some m, some e => some (m * (10 : ℚ) ^ (e : ℤ))
      | _, _ => none

/-- Parsing of a floating-point literal with an optional sign, modelling
the Python float constructor on an already stripped string (the exotic
inf and nan literals, unrepresentable as rationals, are out of scope). -/
def parseFloatQ (s : String) : Option ℚ :=
  match s.data with
  | [] => none
  | '-' :: rest => (parseFloatCoreQ rest).map (fun q => -q)
  | '+' :: rest => parseFloatCoreQ rest
  | cs => parseFloatCoreQ cs

/-- Embedding of the cell typing helper of dataset_module.py: trim, map
the strings N/A and the empty string to the missing marker, keep the
literal Unknown as a string, else try int, then float, else the trimmed
string itself. -/
def _convert_to_appropriate_type (valueStr : String) : Value :=
  let v := pytrim valueStr
  if v = "N/A" ∨ v = "" then .missing
  else if v = "Unknown" then .vstr "Unknown"
  else
    match parseIntQ v with
    | some n => .vint n
    | none =>
        match parseFloatQ v with
        | some q => .vfloat q
        | none => .vstr v

/-- Embedding of the parsing core of load_data in dataset_module.py over
the list of lines of the file: first line is the header; each further
non-blank line is split, trimmed, and kept as a record exactly when its
column count equals the header length. -/
def load_data (fileLines : List String) : List Record × List String :=
  match fileLines with
  | [] => ([], [])
  | headerLine :: rest =>
      let header := (pysplitComma (pytrim headerLine)).map pytrim
      let expected := header.length
      let data := rest.filterMap (fun line =>
        if pytrim line = "" then none
        else
          let values := (pysplitComma (pytrim line)).map pytrim
          if values.length = expected then
            some ((header.zip values).map
              (fun hv => (hv.1, _convert_to_appropriate_type hv.2)))
          else none)
      (data, header)

/-- Outcome of opening and reading the dataset file, the boundary between
load_data and the operating system: the file is missing, reading fails
with some message, or the file yields its list of lines. -/
inductive ReadOutcome where
  | notFound : ReadOutcome
  | failure : String → ReadOutcome
  | fileLines : List String → ReadOutcome

/-- Embedding of the full load_data including its failure semantics: a
missing file becomes a file-not-found error carrying the path, any other
reading failure is wrapped with context, and otherwise the whole file is
processed before the result is returned. -/
def load_data_full (outcome : ReadOutcome) (filepath : String) :
    Except String (List Record × List String) :=
  match outcome with
  | .notFound => .error ("Dataset file not found at: " ++ filepath)
  | .failure msg => .error ("An error occurred while reading the dataset: " ++ msg)
  | .fileLines ls => .ok (load_data ls)

/-- Result values produced by the query catalog: Python strings, ints,
floats (exact rationals from rational inputs, reals where a square root
occurs), None, lists and dicts. -/
inductive PyVal where
  | pystr : String → PyVal
  | pyint : Int → PyVal
  | pyrat : ℚ → PyVal
  | pyreal : ℝ → PyVal
  | pynone : PyVal
  | pylist : List PyVal → PyVal
  | pydict : List (String × PyVal) → PyVal

/-- Lifting of an optional rational statistic into a result value. -/
def optQ : Option ℚ → PyVal
  | some q => .pyrat q
  | none => .pynone

/-- Lifting of an optional real statistic into a result value. -/
noncomputable def optR : Option ℝ → PyVal
  | some r => .pyreal r
  | none => .pynone

/-- Presence of a key at the top level of a dict result value. -/
def PyVal.hasKey : PyVal → String → Bool
  | .pydict kvs, k => kvs.any (fun kv => kv.1 == k)
  | _, _ => false

/-- Embedding of query number x of query_module.py, descriptive statistics
for a named feature, paired with the trace of CSV export events the call
performs: an unknown feature returns an error string immediately, an empty
numeric sequence returns an exported error string, and otherwise the full
bundle is exported and returned. -/
noncomputable def query_descriptive_statistics (data : List Record)
    (feature_name : String) (header : List String) :
    PyVal × List (String × PyVal) :=
  if feature_name ∉ header then
    (.pystr ("Error: Feature '" ++ feature_name ++ "' not found."), [])
  else
    let numbers := _get_numeric_values data feature_name none
    if numbers = [] then
      let result : PyVal := .pystr ("Error: No valid numeric data for '" ++ feature_name ++ "'.")
      (result, [("descriptive_stats_" ++ feature_name ++ ".csv", result)])
    else
      let result : PyVal := .pydict [
        ("feature", .pystr feature_name),
        ("count", .pyint (numbers.length : Int)),
        ("mean", optQ (_calculate_mean numbers)),
        ("std_dev", optR (_calculate_std_dev numbers none)),
        ("min", .pyrat (round2 (pymin numbers))),
        ("25%", optQ (_calculate_percentile numbers 25)),
        ("50% (median)", optQ (_calculate_median numbers)),
        ("75%", optQ (_calculate_percentile numbers 75)),
        ("max", .pyrat (round2 (pymax numbers)))]
      (result, [("descriptive_stats_" ++ feature_name ++ ".csv", result)])

/-- Embedding of query number i of query_module.py, age statistics for
smokers with hypertension who had a stroke, paired with its export trace:
the ages of the two smoking statuses are collected under the hypertension
and stroke conditions, and an empty union yields a message dict. -/
def query_smokers_hypertension_stroke (data : List Record) :
    PyVal × List (String × PyVal) :=
  let ages := ["Formerly smoked", "smokes"].flatMap (fun status =>
    _get_numeric_values data "Age" (some [("Hypertension", .vint 1),
      ("Stroke Occurrence", .vint 1), ("Smoking Status", .vstr status)]))
  let result : PyVal :=
    if ages = [] then
      .pydict [("message", .pystr "No data found for smokers with hypertension who had a stroke")]
    else
      .pydict [
        ("description", .pystr "Smokers with hypertension who had a stroke"),
        ("count", .pyint (ages.length : Int)),
        ("average_age", optQ (_calculate_mean ages)),
        ("median_age", optQ (_calculate_median ages)),
        ("modal_age", .pylist ((_calculate_mode (ages.map some)).map .pyrat))]
  (result, [("smokers_hypertension_stroke.csv", result)])

/-- One of the two parallel statistic bundles built by query number xi of
query_module.py over a sleep-hours sequence; every field of the bundle is
written exactly as in the source, with min and max guarded by emptiness. -/
noncomputable def sleepHoursBundle (l : List ℚ) : PyVal :=
  .pydict [
    ("count", .pyint (l.length : Int)),
    ("mean", optQ (_calculate_mean l)),
    ("median", optQ (_calculate_median l)),
    ("mode", .pylist ((_calculate_mode (l.map some)).map .pyrat)),
    ("std_dev", optR (_calculate_std_dev l none)),
    ("min", if l = [] then .pynone else .pyrat (round2 (pymin l))),
    ("25%", optQ (_calculate_percentile l 25)),
    ("75%", optQ (_calculate_percentile l 75)),
    ("max", if l = [] then .pynone else .pyrat (round2 (pymax l)))]

/-- Embedding of query number xi of query_module.py, sleep hours for
stroke versus non-stroke patients, paired with its export trace: the two
bundles are always built, with no message branch for empty sequences. -/
noncomputable def query_average_sleep_hours_stroke (data : List Record) :
    PyVal × List (String × PyVal) :=
  let sleepStroke := _get_numeric_values data "Sleep Hours"
    (some [("Stroke Occurrence", .vint 1)])
  let sleepNoStroke := _get_numeric_values data "Sleep Hours"
    (some [("Stroke Occurrence", .vint 0)])
  let result : PyVal := .pydict [
    ("stroke", sleepHoursBundle sleepStroke),
    ("no_stroke", sleepHoursBundle sleepNoStroke)]
  (result, [("average_sleep_hours_stroke.csv", result)])

/-- Unified form of the linear interpolation used by the percentile helper:
the floor-index element plus the fractional part of the rank times the gap
to the ceiling-index element; it agrees with both branches of the source. -/
def interpVal (s : List ℚ) (k : ℚ) : ℚ :=
  s.getD (⌊k⌋).toNat 0 + (k - (⌊k⌋ : ℚ)) * (s.getD (⌈k⌉).toNat 0 - s.getD (⌊k⌋).toNat 0)

/-! Helper lemmas about rounding, sorting, folds and interpolation. -/

theorem rhe_mono {α : Type} [LinearOrderedField α] [FloorRing α] {q r : α}
    (h : q ≤ r) : rhe q ≤ rhe r := by
  have hf : ⌊q⌋ ≤ ⌊r⌋ := Int.floor_le_floor h
  unfold rhe
  by_cases hq : ⌊q⌋ = ⌊r⌋
  · have hfr : Int.fract q ≤ Int.fract r := by
      rw [← Int.self_sub_floor, ← Int.self_sub_floor, hq]
      exact sub_le_sub_right h _
    split_ifs <;> first | omega | linarith
  · have h1 : ⌊q⌋ < ⌊r⌋ := lt_of_le_of_ne hf hq
    split_ifs <;> omega

theorem round2_mono {α : Type} [LinearOrderedField α] [FloorRing α] {q r : α}
    (h : q ≤ r) : round2 q ≤ round2 r := by
  unfold round2
  have h100 : (0 : α) ≤ 100 := by norm_num
  apply div_le_div_of_nonneg_right ?_ h100
  exact_mod_cast rhe_mono (mul_le_mul_of_nonneg_right h (by norm_num))

theorem sorted_getD_le (s : List ℚ) (hs : s.Sorted (· ≤ ·)) {i j : ℕ}
    (hij : i ≤ j) (hj : j < s.length) : s.getD i 0 ≤ s.getD j 0 := by
  have hi : i < s.length := lt_of_le_of_lt hij hj
  rw [List.getD_eq_getElem _ _ hi, List.getD_eq_getElem _ _ hj]
  have := hs.rel_get_of_le (a := ⟨i, hi⟩) (b := ⟨j, hj⟩) hij
  simpa [List.get_eq_getElem] using this

theorem foldl_max_spec {α : Type} [LinearOrder α] (xs : List α) (a : α) :
    (xs.foldl max a = a ∨ xs.foldl max a ∈ xs) ∧ a ≤ xs.foldl max a ∧
      ∀ y ∈ xs, y ≤ xs.foldl max a := by
  induction xs generalizing a with
  | nil => exact ⟨Or.inl rfl, le_refl a, by simp⟩
  | cons x xs ih =>
      obtain ⟨hmem, hle, hall⟩ := ih (max a x)
      refine ⟨?_, le_trans (le_max_left _ _) hle, ?_⟩
      · rcases hmem with hm | hm
        · rcases max_choice a x with hc | hc
          · exact Or.inl (by rw [List.foldl_cons, hm, hc])
          · exact Or.inr (by rw [List.foldl_cons, hm, hc]; exact List.mem_cons_self _ _)
        · exact Or.inr (List.mem_cons_of_mem _ hm)
      · intro y hy
        rcases List.mem_cons.mp hy with rfl | hyx
        · exact le_trans (le_max_right _ _) hle
        · exact hall y hyx

theorem le_foldl_max (l : List ℕ) (b a : ℕ) (h : a ∈ l) : a ≤ l.foldl max b :=
  (foldl_max_spec l b).2.2 a h

theorem foldl_max_le (l : List ℕ) (b c : ℕ) (hb : b ≤ c) (h : ∀ a ∈ l, a ≤ c) :
    l.foldl max b ≤ c := by
  rcases (foldl_max_spec l b).1 with hm | hm
  · rw [hm]; exact hb
  · exact h _ hm

theorem foldl_min_spec (xs : List ℚ) (a : ℚ) :
    (xs.foldl min a = a ∨ xs.foldl min a ∈ xs) ∧ xs.foldl min a ≤ a ∧
      ∀ y ∈ xs, xs.foldl min a ≤ y := by
  induction xs generalizing a with
  | nil => exact ⟨Or.inl rfl, le_refl a, by simp⟩
  | cons x xs ih =>
      obtain ⟨hmem, hle, hall⟩ := ih (min a x)
      refine ⟨?_, le_trans hle (min_le_left _ _), ?_⟩
      · rcases hmem with hm | hm
        · rcases min_choice a x with hc | hc
          · exact Or.inl (by rw [List.foldl_cons, hm, hc])
          · exact Or.inr (by rw [List.foldl_cons, hm, hc]; exact List.mem_cons_self _ _)
        · exact Or.inr (List.mem_cons_of_mem _ hm)
      · intro y hy
        rcases List.mem_cons.mp hy with rfl | hyx
        · exact le_trans hle (min_le_right _ _)
        · exact hall y hyx


theorem sortAsc_sorted (l : List ℚ) : (sortAsc l).Sorted (· ≤ ·) :=
  List.sorted_insertionSort _ l

theorem sortAsc_perm (l : List ℚ) : (sortAsc l).Perm l :=
  List.perm_insertionSort _ l

theorem sortAsc_length (l : List ℚ) : (sortAsc l).length = l.length :=
  (sortAsc_perm l).length_eq

theorem pymin_spec (l : List ℚ) (h : l ≠ []) : pymin l ∈ l ∧ ∀ x ∈ l, pymin l ≤ x := by
  match l with
  | x :: xs =>
      obtain ⟨hmem, hle, hall⟩ := foldl_min_spec xs x
      refine ⟨?_, ?_⟩
      · rcases hmem with hm | hm
        · show List.foldl min x xs ∈ x :: xs
          rw [hm]; exact List.mem_cons_self _ _
        · show List.foldl min x xs ∈ x :: xs
          exact List.mem_cons_of_mem _ hm
      · intro y hy
        rcases List.mem_cons.mp hy with rfl | hyx
        · exact hle
        · exact hall y hyx

theorem pymax_spec (l : List ℚ) (h : l ≠ []) : pymax l ∈ l ∧ ∀ x ∈ l, x ≤ pymax l := by
  match l with
  | x :: xs =>
      obtain ⟨hmem, hle, hall⟩ := foldl_max_spec xs x
      refine ⟨?_, ?_⟩
      · rcases hmem with hm | hm
        · show List.foldl max x xs ∈ x :: xs
          rw [hm]; exact List.mem_cons_self _ _
        · show List.foldl max x xs ∈ x :: xs
          exact List.mem_cons_of_mem _ hm
      · intro y hy
        rcases List.mem_cons.mp hy with rfl | hyx
        · exact hle
        · exact hall y hyx

theorem sortAsc_ne_nil {l : List ℚ} (h : l ≠ []) : sortAsc l ≠ [] := by
  intro hc
  apply h
  have := sortAsc_length l
  rw [hc] at this
  exact List.length_eq_zero.mp this.symm

theorem sortAsc_getD_mem {l : List ℚ} {i : ℕ} (hi : i < l.length) :
    (sortAsc l).getD i 0 ∈ l := by
  have hi' : i < (sortAsc l).length := by rw [sortAsc_length]; exact hi
  rw [List.getD_eq_getElem _ _ hi']
  exact (sortAsc_perm l).mem_iff.mp (List.getElem_mem _)

theorem pymin_eq_sortAsc_head (l : List ℚ) (h : l ≠ []) :
    pymin l = (sortAsc l).getD 0 0 := by
  have hlen : 0 < l.length := List.length_pos.mpr h
  obtain ⟨hm, hle⟩ := pymin_spec l h
  refine le_antisymm (hle _ (sortAsc_getD_mem hlen)) ?_
  obtain ⟨j, hj, hjv⟩ := List.getElem_of_mem ((sortAsc_perm l).mem_iff.mpr hm)
  rw [← hjv, ← List.getD_eq_getElem _ 0 hj]
  exact sorted_getD_le _ (sortAsc_sorted l) (Nat.zero_le j) hj

theorem pymax_eq_sortAsc_last (l : List ℚ) (h : l ≠ []) :
    pymax l = (sortAsc l).getD (l.length - 1) 0 := by
  have hlen : 0 < l.length := List.length_pos.mpr h
  have hidx : l.length - 1 < l.length := by omega
  obtain ⟨hm, hle⟩ := pymax_spec l h
  refine le_antisymm ?_ (hle _ (sortAsc_getD_mem hidx))
  obtain ⟨j, hj, hjv⟩ := List.getElem_of_mem ((sortAsc_perm l).mem_iff.mpr hm)
  rw [← hjv, ← List.getD_eq_getElem _ 0 hj]
  have hj' : l.length - 1 < (sortAsc l).length := by rw [sortAsc_length]; exact hidx
  apply sorted_getD_le _ (sortAsc_sorted l) ?_ hj'
  rw [sortAsc_length] at hj
  omega

theorem interpVal_natCast (s : List ℚ) (m : ℕ) : interpVal s (m : ℚ) = s.getD m 0 := by
  unfold interpVal
  rw [show ((m : ℚ)) = ((m : ℤ) : ℚ) by push_cast; ring]
  rw [Int.floor_intCast, Int.ceil_intCast]
  simp

theorem interpVal_bounds (s : List ℚ) (hs : s.Sorted (· ≤ ·)) {k : ℚ}
    (h0 : 0 ≤ k) (h1 : k ≤ (s.length : ℚ) - 1) :
    s.getD (⌊k⌋).toNat 0 ≤ interpVal s k ∧ interpVal s k ≤ s.getD (⌈k⌉).toNat 0 := by
  have hn : 1 ≤ s.length := by
    by_contra hc
    push_neg at hc
    have h00 : s.length = 0 := by omega
    rw [h00] at h1
    push_cast at h1
    linarith
  have hfl : 0 ≤ ⌊k⌋ := Int.floor_nonneg.mpr h0
  have hcl : ⌈k⌉ ≤ (s.length : ℤ) - 1 := by
    rw [Int.ceil_le]
    push_cast
    linarith
  have hflc : ⌊k⌋ ≤ ⌈k⌉ := Int.floor_le_ceil k
  have hcn : (⌈k⌉).toNat < s.length := by omega
  have hidx : (⌊k⌋).toNat ≤ (⌈k⌉).toNat := by omega
  have hab : s.getD (⌊k⌋).toNat 0 ≤ s.getD (⌈k⌉).toNat 0 := sorted_getD_le s hs hidx hcn
  have ht0 : 0 ≤ k - (⌊k⌋ : ℚ) := sub_nonneg.mpr (Int.floor_le k)
  have ht1 : k - (⌊k⌋ : ℚ) ≤ 1 := by
    have := Int.lt_floor_add_one k
    linarith
  unfold interpVal
  constructor
  · nlinarith
  · nlinarith

theorem interpVal_mono (s : List ℚ) (hs : s.Sorted (· ≤ ·)) {k1 k2 : ℚ}
    (h0 : 0 ≤ k1) (h12 : k1 ≤ k2) (h2 : k2 ≤ (s.length : ℚ) - 1) :
    interpVal s k1 ≤ interpVal s k2 := by
  have h01 : 0 ≤ k2 := le_trans h0 h12
  have h1' : k1 ≤ (s.length : ℚ) - 1 := le_trans h12 h2
  have hn : 1 ≤ s.length := by
    by_contra hc
    push_neg at hc
    have h00 : s.length = 0 := by omega
    rw [h00] at h2
    push_cast at h2
    linarith
  have hb1 := interpVal_bounds s hs h0 h1'
  have hb2 := interpVal_bounds s hs h01 h2
  by_cases hf : ⌊k1⌋ = ⌊k2⌋
  · by_cases hc : ⌈k1⌉ = ⌈k2⌉
    · have hfl : 0 ≤ ⌊k2⌋ := Int.floor_nonneg.mpr h01
      have hcl : ⌈k2⌉ ≤ (s.length : ℤ) - 1 := by
        rw [Int.ceil_le]
        push_cast
        linarith
      have hflc : ⌊k2⌋ ≤ ⌈k2⌉ := Int.floor_le_ceil k2
      have hcn : (⌈k2⌉).toNat < s.length := by omega
      have hidx : (⌊k2⌋).toNat ≤ (⌈k2⌉).toNat := by omega
      have hab : s.getD (⌊k2⌋).toNat 0 ≤ s.getD (⌈k2⌉).toNat 0 :=
        sorted_getD_le s hs hidx hcn
      unfold interpVal
      rw [hf, hc]
      have hmul := mul_le_mul_of_nonneg_right
        (sub_le_sub_right h12 ((⌊k2⌋ : ℚ))) (sub_nonneg.mpr hab)
      linarith
    · have hcc : ⌈k1⌉ ≤ ⌈k2⌉ := Int.ceil_mono h12
      have hc1 := Int.ceil_le_floor_add_one k1
      have hc2 := Int.ceil_le_floor_add_one k2
      have hfc1 := Int.floor_le_ceil k1
      have hfc2 := Int.floor_le_ceil k2
      have hk1int : ⌈k1⌉ = ⌊k1⌋ := by omega
      have hk1 : k1 = ((⌊k1⌋ : ℤ) : ℚ) := by
        refine le_antisymm ?_ (Int.floor_le k1)
        calc k1 ≤ ((⌈k1⌉ : ℤ) : ℚ) := Int.le_ceil k1
          _ = ((⌊k1⌋ : ℤ) : ℚ) := by exact_mod_cast congrArg Int.cast hk1int
      have hv1 : interpVal s k1 = s.getD (⌊k1⌋).toNat 0 := by
        unfold interpVal
        rw [hk1]
        simp [Int.floor_intCast, Int.ceil_intCast]
      rw [hv1, hf]
      exact hb2.1
  · have hlt : ⌊k1⌋ < ⌊k2⌋ := lt_of_le_of_ne (Int.floor_mono h12) hf
    refine le_trans hb1.2 (le_trans ?_ hb2.1)
    apply sorted_getD_le s hs
    · have := Int.ceil_le_floor_add_one k1
      omega
    · have h2c : ⌈k2⌉ ≤ (s.length : ℤ) - 1 := by
        rw [Int.ceil_le]
        push_cast
        linarith
      have := Int.floor_le_ceil k2
      omega

theorem percentileVal_eq_interpVal (s : List ℚ) (p : ℚ) :
    percentileVal s p = interpVal s (((s.length : ℚ) - 1) * (p / 100)) := by
  unfold percentileVal interpVal
  set k : ℚ := ((s.length : ℚ) - 1) * (p / 100) with hk
  by_cases h : ⌊k⌋ = ⌈k⌉
  · rw [if_pos h]
    have hkc : ((⌊k⌋ : ℤ) : ℚ) = k := by
      refine le_antisymm (Int.floor_le k) ?_
      calc k ≤ ((⌈k⌉ : ℤ) : ℚ) := Int.le_ceil k
        _ = ((⌊k⌋ : ℤ) : ℚ) := by exact_mod_cast congrArg Int.cast h.symm
    rw [hkc]
    ring
  · rw [if_neg h]
    have hc : ⌈k⌉ = ⌊k⌋ + 1 := by
      have h1 := Int.ceil_le_floor_add_one k
      have h2 := Int.floor_le_ceil k
      omega
    rw [hc]
    push_cast
    ring

theorem medianVal_eq_interpVal (s : List ℚ) (h : s ≠ []) :
    medianVal s = interpVal s (((s.length : ℚ) - 1) / 2) := by
  have hn : 1 ≤ s.length := List.length_pos.mpr h
  unfold medianVal
  rcases Nat.even_or_odd s.length with he | ho
  · obtain ⟨m, hm⟩ := he
    have hm1 : 1 ≤ m := by omega
    have hk : ((s.length : ℚ) - 1) / 2 = ((m : ℚ) - 1) + 1 / 2 := by
      rw [hm]
      push_cast
      ring
    have hfl : ⌊((s.length : ℚ) - 1) / 2⌋ = (m : ℤ) - 1 := by
      rw [hk, Int.floor_eq_iff]
      constructor
      · push_cast
        linarith
      · push_cast
        linarith
    have hcl : ⌈((s.length : ℚ) - 1) / 2⌉ = (m : ℤ) := by
      rw [hk, Int.ceil_eq_iff]
      constructor
      · push_cast
        linarith
      · push_cast
        linarith
    have hmod : s.length % 2 = 0 := by omega
    have hmid : s.length / 2 = m := by omega
    rw [if_pos hmod, hmid]
    unfold interpVal
    rw [hfl, hcl]
    have ht1 : ((m : ℤ) - 1).toNat = m - 1 := by omega
    have ht2 : ((m : ℤ)).toNat = m := by omega
    rw [ht1, ht2, hk]
    push_cast [Nat.cast_sub hm1]
    ring
  · obtain ⟨m, hm⟩ := ho
    have hk : ((s.length : ℚ) - 1) / 2 = ((m : ℕ) : ℚ) := by
      rw [hm]
      push_cast
      ring
    have hmod : ¬(s.length % 2 = 0) := by omega
    have hmid : s.length / 2 = m := by omega
    rw [if_neg hmod, hmid, hk, interpVal_natCast]

/-- Claim C3: for every numeric sequence the implemented percentile at 50
equals the implemented median, both being the absence marker on the empty
sequence and the same rounded number on nonempty sequences. -/
theorem claim3_percentile50_eq_median (numbers : List ℚ) :
    _calculate_percentile numbers 50 = _calculate_median numbers ∧
    (numbers = [] → _calculate_percentile numbers 50 = none) := by
  constructor
  · by_cases h : numbers = []
    · simp [_calculate_percentile, _calculate_median, h]
    · unfold _calculate_percentile _calculate_median
      rw [if_neg, if_neg h]
      · have hs : sortAsc numbers ≠ [] := sortAsc_ne_nil h
        rw [percentileVal_eq_interpVal, medianVal_eq_interpVal _ hs]
        have harg : ((((sortAsc numbers).length : ℚ) - 1) * (50 / 100)) =
            (((sortAsc numbers).length : ℚ) - 1) / 2 := by ring
        rw [harg]
      · push_neg
        exact ⟨h, by norm_num⟩
  · intro h
    simp [_calculate_percentile, h]

/-- Claim C3 witness: evaluation of the equal-on-empty conjunct at the
empty sequence. -/
theorem claim3_percentile50_eq_median_witness :
    ([] : List ℚ) = [] ∧ _calculate_percentile [] 50 = none :=
  ⟨rfl, (claim3_percentile50_eq_median []).2 rfl⟩

/-- Claim C7 counterexample: on the one-element sequence holding 1.004 the
raw minimum is 1.004 while the implemented 25th percentile rounds to 1, so
the claimed chain with the raw minimum on the left fails as stated. -/
theorem claim7_counterexample :
    pymin [(251 : ℚ)/250] = 251/250 ∧
    _calculate_percentile [(251 : ℚ)/250] 25 = some 1 ∧
    ¬(pymin [(251 : ℚ)/250] ≤ (1 : ℚ)) := by
  have hsort : sortAsc [(251 : ℚ)/250] = [251/250] := rfl
  have hpv : percentileVal [(251 : ℚ)/250] 25 = 251/250 := by
    unfold percentileVal
    norm_num
  refine ⟨by norm_num [pymin], ?_, by norm_num [pymin]⟩
  unfold _calculate_percentile
  rw [if_neg (by norm_num), hsort, hpv]
  norm_num [round2, rhe, Int.fract]

/-- Claim C7 as amended: for every nonempty numeric sequence, with the
minimum and maximum rounded to 2 decimal places exactly as the descriptive
statistics query exports them, the chain rounded min at most percentile 25
at most median at most percentile 75 at most rounded max holds. -/
theorem claim7_order_chain (numbers : List ℚ) (h : numbers ≠ []) :
    ∃ p25 med p75 : ℚ,
      _calculate_percentile numbers 25 = some p25 ∧
      _calculate_median numbers = some med ∧
      _calculate_percentile numbers 75 = some p75 ∧
      round2 (pymin numbers) ≤ p25 ∧ p25 ≤ med ∧ med ≤ p75 ∧
      p75 ≤ round2 (pymax numbers) := by
  have hs : (sortAsc numbers).Sorted (· ≤ ·) := sortAsc_sorted numbers
  have hsne : sortAsc numbers ≠ [] := sortAsc_ne_nil h
  have hlen : (sortAsc numbers).length = numbers.length := sortAsc_length numbers
  have hn : 1 ≤ (sortAsc numbers).length := List.length_pos.mpr hsne
  have hnQ : (1 : ℚ) ≤ ((sortAsc numbers).length : ℚ) := by exact_mod_cast hn
  have h25 : _calculate_percentile numbers 25 =
      some (round2 (percentileVal (sortAsc numbers) 25)) := by
    unfold _calculate_percentile
    rw [if_neg]
    push_neg
    exact ⟨h, by norm_num⟩
  have h75 : _calculate_percentile numbers 75 =
      some (round2 (percentileVal (sortAsc numbers) 75)) := by
    unfold _calculate_percentile
    rw [if_neg]
    push_neg
    exact ⟨h, by norm_num⟩
  have hmed : _calculate_median numbers =
      some (round2 (medianVal (sortAsc numbers))) := by
    unfold _calculate_median
    rw [if_neg h]
  have hminv : pymin numbers = interpVal (sortAsc numbers) 0 := by
    rw [pymin_eq_sortAsc_head numbers h]
    have h0 := interpVal_natCast (sortAsc numbers) 0
    rw [Nat.cast_zero] at h0
    rw [h0]
  have hmaxv : pymax numbers = interpVal (sortAsc numbers)
      (((sortAsc numbers).length : ℚ) - 1) := by
    rw [pymax_eq_sortAsc_last numbers h]
    have hc : (((sortAsc numbers).length : ℚ) - 1) =
        (((sortAsc numbers).length - 1 : ℕ) : ℚ) := by
      push_cast [Nat.cast_sub hn]
      ring
    rw [hc, interpVal_natCast, hlen]
  refine ⟨_, _, _, h25, hmed, h75, ?_, ?_, ?_, ?_⟩
  · rw [hminv, percentileVal_eq_interpVal]
    apply round2_mono
    apply interpVal_mono _ hs le_rfl
    · exact mul_nonneg (by linarith) (by norm_num)
    · nlinarith
  · rw [percentileVal_eq_interpVal, medianVal_eq_interpVal _ hsne]
    apply round2_mono
    apply interpVal_mono _ hs
    · exact mul_nonneg (by linarith) (by norm_num)
    · nlinarith
    · nlinarith
  · rw [percentileVal_eq_interpVal, medianVal_eq_interpVal _ hsne]
    apply round2_mono
    apply interpVal_mono _ hs
    · linarith
    · nlinarith
    · nlinarith
  · rw [hmaxv, percentileVal_eq_interpVal]
    apply round2_mono
    apply interpVal_mono _ hs
    · exact mul_nonneg (by linarith) (by norm_num)
    · nlinarith
    · nlinarith

/-- Claim C7 witness: the amended chain evaluated on the sequence 1, 2, 3. -/
theorem claim7_order_chain_witness :
    ([1, 2, 3] : List ℚ) ≠ [] ∧
    ∃ p25 med p75 : ℚ,
      _calculate_percentile [1, 2, 3] 25 = some p25 ∧
      _calculate_median [1, 2, 3] = some med ∧
      _calculate_percentile [1, 2, 3] 75 = some p75 ∧
      round2 (pymin [1, 2, 3]) ≤ p25 ∧ p25 ≤ med ∧ med ≤ p75 ∧
      p75 ≤ round2 (pymax [1, 2, 3]) :=
  ⟨by decide, claim7_order_chain [1, 2, 3] (by decide)⟩

/-- Claim C6: each statistics primitive yields the absence marker exactly
on its degenerate inputs: mean and median on the empty sequence, sample
standard deviation on sequences with fewer than 2 elements, percentile on
the empty sequence or a percentile outside 0 to 100; hence no field is
ever computed with a zero divisor or an out-of-range index. -/
theorem claim6_degenerate_absence (l : List ℚ) (m : Option ℚ) (p : ℚ) :
    (_calculate_mean l = none ↔ l = []) ∧
    (_calculate_median l = none ↔ l = []) ∧
    (_calculate_std_dev l m = none ↔ l.length < 2) ∧
    (_calculate_percentile l p = none ↔ (l = [] ∨ ¬(0 ≤ p ∧ p ≤ 100))) := by
  refine ⟨?_, ?_, ?_, ?_⟩
  · unfold _calculate_mean
    split <;> simp_all
  · unfold _calculate_median
    split <;> simp_all
  · unfold _calculate_std_dev
    split
    · rename_i hc
      simp only [true_iff]
      rcases hc with hc | hc
      · rw [hc]
        simp
      · exact hc
    · rename_i hc
      push_neg at hc
      simp [hc.2]
  · unfold _calculate_percentile
    split <;> simp_all

/-- Claim C6 witness: the mean of the empty sequence is the absence
marker, via the mean conjunct at the empty list. -/
theorem claim6_degenerate_absence_witness : _calculate_mean ([] : List ℚ) = none :=
  (claim6_degenerate_absence [] none 50).1.mpr rfl

/-- Claim C10: the filter output is an order-preserving subsequence of its
input, each kept record appearing once and unmodified, and an empty
condition set returns the input list itself. -/
theorem claim10_filter_subsequence (data : List Record)
    (conditions : List (String × Value)) :
    (_filter_data data conditions).Sublist data ∧
    (conditions = [] → _filter_data data conditions = data) := by
  constructor
  · unfold _filter_data
    split
    · exact List.Sublist.refl data
    · exact List.filter_sublist data
  · intro hc
    simp [_filter_data, hc]

/-- Claim C10 witness: the sublist and empty-condition facts evaluated on
a one-record dataset. -/
theorem claim10_filter_subsequence_witness :
    (_filter_data [[("Age", Value.vint 30)]] []).Sublist [[("Age", Value.vint 30)]] ∧
    _filter_data [[("Age", Value.vint 30)]] [] = [[("Age", Value.vint 30)]] :=
  ⟨(claim10_filter_subsequence _ _).1, (claim10_filter_subsequence _ _).2 rfl⟩

/-- Claim C4 counterexample: a record holding the float 1.0 under the
field Hypertension is kept by the filter under the condition integer 1,
although its stored value is not equal to the condition value including
type; the keep-iff-exactly-equal-including-type reading is therefore false
at this input. -/
theorem claim4_counterexample :
    ¬ (∀ r : Record,
        r ∈ _filter_data [[("Hypertension", Value.vfloat 1)]]
            [("Hypertension", Value.vint 1)] ↔
          r ∈ [[("Hypertension", Value.vfloat 1)]] ∧
            ∀ kv ∈ [("Hypertension", Value.vint 1)], Record.get r kv.1 = kv.2) := by
  intro hcl
  have hmem : ([("Hypertension", Value.vfloat 1)] : Record) ∈
      _filter_data [[("Hypertension", Value.vfloat 1)]]
        [("Hypertension", Value.vint 1)] := by decide
  obtain ⟨-, hall⟩ := (hcl _).mp hmem
  have hget := hall ("Hypertension", Value.vint 1) (by decide)
  exact absurd hget (by decide)

/-- Claim C4 as amended: the filter keeps a record iff every condition
pair holds under Python equality, under which an int and a float compare
by numeric value while the integer 1 remains distinct from the string 1;
an empty condition set returns the records unchanged. -/
theorem claim4_filter_equality_semantics (data : List Record)
    (conditions : List (String × Value)) :
    (∀ r : Record, r ∈ _filter_data data conditions ↔
        r ∈ data ∧ ∀ kv ∈ conditions, (Record.get r kv.1).pyEq kv.2 = true) ∧
    (conditions = [] → _filter_data data conditions = data) ∧
    Value.pyEq (Value.vint 1) (Value.vstr "1") = false ∧
    Value.pyEq (Value.vint 1) (Value.vfloat 1) = true := by
  refine ⟨?_, fun hc => by simp [_filter_data, hc], rfl, by decide⟩
  intro r
  unfold _filter_data
  split
  · rename_i hc
    subst hc
    simp
  · rw [List.mem_filter]
    simp [List.all_eq_true]

/-- Claim C4 witness: the empty-condition and int-versus-string facts
evaluated on a one-record dataset. -/
theorem claim4_filter_equality_semantics_witness :
    _filter_data [[("Age", Value.vint 1)]] [] = [[("Age", Value.vint 1)]] ∧
    Value.pyEq (Value.vint 1) (Value.vstr "1") = false :=
  ⟨(claim4_filter_equality_semantics [[("Age", Value.vint 1)]] []).2.1 rfl,
    (claim4_filter_equality_semantics [] []).2.2.1⟩

theorem mode_count_iff (valid : List ℚ) (v : ℚ) (hv : v ∈ valid) :
    (valid.count v = (valid.dedup.map (fun w => valid.count w)).foldl max 0) ↔
    (∀ w ∈ valid, valid.count w ≤ valid.count v) := by
  constructor
  · intro he w hw
    rw [he]
    exact le_foldl_max _ _ _ (List.mem_map_of_mem _ (List.mem_dedup.mpr hw))
  · intro hall
    refine le_antisymm ?_ ?_
    · exact le_foldl_max _ _ _ (List.mem_map_of_mem _ (List.mem_dedup.mpr hv))
    · refine foldl_max_le _ _ _ (Nat.zero_le _) ?_
      intro a ha
      obtain ⟨w, hwd, rfl⟩ := List.mem_map.mp ha
      exact hall w (List.mem_dedup.mp hwd)

/-- Claim C8: the mode is the ascending-sorted collection of exactly the
values tied for the maximum occurrence count after null entries are
removed; empty or all-null input yields an empty collection, and the mode
of 1,1,2,2,3 is the pair 1,2. -/
theorem claim8_mode_spec (items : List (Option ℚ)) :
    (_calculate_mode items).Sorted (· ≤ ·) ∧
    (∀ v : ℚ, v ∈ _calculate_mode items ↔
      v ∈ items.filterMap id ∧
        ∀ w ∈ items.filterMap id,
          (items.filterMap id).count w ≤ (items.filterMap id).count v) ∧
    _calculate_mode [] = [] ∧
    _calculate_mode [none, none] = [] ∧
    _calculate_mode [some 1, some 1, some 2, some 2, some 3] = [1, 2] := by
  refine ⟨?_, ?_, rfl, rfl, by decide⟩
  · simp only [_calculate_mode]
    split
    · exact List.sorted_nil
    · exact List.sorted_insertionSort _ _
  · intro v
    simp only [_calculate_mode]
    split
    · rename_i hc
      rw [hc]
      simp
    · rename_i hc
      rw [List.mem_insertionSort, List.mem_filter]
      simp only [decide_eq_true_eq]
      constructor
      · rintro ⟨hvd, hvc⟩
        have hvv := List.mem_dedup.mp hvd
        exact ⟨hvv, (mode_count_iff _ v hvv).mp hvc⟩
      · rintro ⟨hvv, hall⟩
        exact ⟨List.mem_dedup.mpr hvv, (mode_count_iff _ v hvv).mpr hall⟩

/-- Claim C8 witness: the mode of 1,1,2,2,3, via the concrete conjunct of
the mode specification. -/
theorem claim8_mode_spec_witness :
    _calculate_mode [some 1, some 1, some 2, some 2, some 3] = [1, 2] :=
  (claim8_mode_spec []).2.2.2.2

/-- Claim C1 counterexample: with the feature Nonexistent absent from the
header, the descriptive statistics query returns the error string but its
export trace is empty, so the error result is not exported before being
returned, contrary to the claim. -/
theorem claim1_counterexample :
    (query_descriptive_statistics [] "Nonexistent" ["Age"]).1 =
      .pystr "Error: Feature 'Nonexistent' not found." ∧
    (query_descriptive_statistics [] "Nonexistent" ["Age"]).2 = [] :=
  ⟨rfl, rfl⟩

/-- Claim C1 as amended: for every dataset, feature name and header with
the feature absent from the header, the descriptive statistics query
returns an error-message result value without raising, and returns it
immediately with no CSV export performed for it. -/
theorem claim1_unknown_feature (data : List Record) (feature_name : String)
    (header : List String) (h : feature_name ∉ header) :
    query_descriptive_statistics data feature_name header =
      (.pystr ("Error: Feature '" ++ feature_name ++ "' not found."), []) := by
  unfold query_descriptive_statistics
  rw [if_pos h]

/-- Claim C1 witness: the unknown-feature behaviour evaluated at the
feature Nonexistent against the header containing only Age. -/
theorem claim1_unknown_feature_witness :
    "Nonexistent" ∉ ["Age"] ∧
    query_descriptive_statistics [] "Nonexistent" ["Age"] =
      (.pystr ("Error: Feature '" ++ "Nonexistent" ++ "' not found."), []) :=
  ⟨by decide, claim1_unknown_feature [] "Nonexistent" ["Age"] (by decide)⟩

/-- Claim C2 counterexample: on the empty dataset both driving sequences
of the sleep-hours analysis are empty, yet the result is not a message
shape: it has no message field anywhere and is a pair of statistic bundles
whose statistic fields are all absence markers. -/
theorem claim2_counterexample :
    (query_average_sleep_hours_stroke []).1 =
      .pydict [("stroke", sleepHoursBundle []), ("no_stroke", sleepHoursBundle [])] ∧
    sleepHoursBundle [] = .pydict [
      ("count", .pyint 0), ("mean", .pynone), ("median", .pynone),
      ("mode", .pylist []), ("std_dev", .pynone), ("min", .pynone),
      ("25%", .pynone), ("75%", .pynone), ("max", .pynone)] ∧
    PyVal.hasKey (query_average_sleep_hours_stroke []).1 "message" = false ∧
    PyVal.hasKey (sleepHoursBundle []) "message" = false :=
  ⟨rfl, rfl, rfl, rfl⟩

/-- Claim C2 as amended: for every dataset, the smokers-with-hypertension
analysis does return a message dict when its driving sequence is empty,
but the sleep-hours-by-outcome analysis does not: whenever no records
match stroke 1 (or, symmetrically, stroke 0) the corresponding entry of
its result is the bundle over the empty sequence, which has count 0,
every statistic field an absence marker, and no message field. -/
theorem claim2_empty_driving_sequences (data : List Record) :
    ((["Formerly smoked", "smokes"].flatMap (fun status =>
        _get_numeric_values data "Age" (some [("Hypertension", .vint 1),
          ("Stroke Occurrence", .vint 1), ("Smoking Status", .vstr status)]))) = [] →
      (query_smokers_hypertension_stroke data).1 =
        .pydict [("message",
          .pystr "No data found for smokers with hypertension who had a stroke")]) ∧
    (_get_numeric_values data "Sleep Hours" (some [("Stroke Occurrence", .vint 1)]) = [] →
      (query_average_sleep_hours_stroke data).1 =
        .pydict [("stroke", sleepHoursBundle []),
          ("no_stroke", sleepHoursBundle (_get_numeric_values data "Sleep Hours"
            (some [("Stroke Occurrence", .vint 0)])))]) ∧
    (_get_numeric_values data "Sleep Hours" (some [("Stroke Occurrence", .vint 0)]) = [] →
      (query_average_sleep_hours_stroke data).1 =
        .pydict [("stroke", sleepHoursBundle (_get_numeric_values data "Sleep Hours"
            (some [("Stroke Occurrence", .vint 1)]))),
          ("no_stroke", sleepHoursBundle [])]) ∧
    sleepHoursBundle [] = .pydict [
      ("count", .pyint 0), ("mean", .pynone), ("median", .pynone),
      ("mode", .pylist []), ("std_dev", .pynone), ("min", .pynone),
      ("25%", .pynone), ("75%", .pynone), ("max", .pynone)] ∧
    PyVal.hasKey (sleepHoursBundle []) "message" = false := by
  refine ⟨?_, ?_, ?_, rfl, rfl⟩
  · intro h
    unfold query_smokers_hypertension_stroke
    simp only [h]
    rfl
  · intro h1
    simp only [query_average_sleep_hours_stroke, h1]
  · intro h0
    simp only [query_average_sleep_hours_stroke, h0]

/-- Claim C2 witness: the amended statement evaluated on the empty
dataset, on which all three driving sequences are empty. -/
theorem claim2_empty_driving_sequences_witness :
    (query_smokers_hypertension_stroke []).1 =
      .pydict [("message",
        .pystr "No data found for smokers with hypertension who had a stroke")] ∧
    (query_average_sleep_hours_stroke []).1 =
      .pydict [("stroke", sleepHoursBundle []),
        ("no_stroke", sleepHoursBundle (_get_numeric_values [] "Sleep Hours"
          (some [("Stroke Occurrence", .vint 0)])))] ∧
    PyVal.hasKey (sleepHoursBundle []) "message" = false :=
  ⟨(claim2_empty_driving_sequences []).1 rfl,
    (claim2_empty_driving_sequences []).2.1 rfl,
    (claim2_empty_driving_sequences []).2.2.2.2⟩

/-- Claim C9: the loader returns an empty dataset and header on the empty
file, a missing file becomes a file-not-found error whose message carries
the path, any other reading failure is wrapped with context, and every
successful return is the processing of the whole readable file. -/
theorem claim9_load_failure_semantics (filepath msg : String) (outcome : ReadOutcome) :
    load_data_full (.fileLines []) filepath = .ok ([], []) ∧
    load_data_full .notFound filepath =
      .error ("Dataset file not found at: " ++ filepath) ∧
    load_data_full (.failure msg) filepath =
      .error ("An error occurred while reading the dataset: " ++ msg) ∧
    (∀ result, load_data_full outcome filepath = .ok result →
      ∃ ls, outcome = .fileLines ls ∧ result = load_data ls) := by
  refine ⟨rfl, rfl, rfl, ?_⟩
  intro result hres
  cases outcome with
  | notFound => simp [load_data_full] at hres
  | failure m => simp [load_data_full] at hres
  | fileLines ls =>
      refine ⟨ls, rfl, ?_⟩
      simp only [load_data_full, Except.ok.injEq] at hres
      exact hres.symm

/-- Claim C9 witness: a successful read of a two-line file is exactly the
processing of those lines. -/
theorem claim9_load_failure_semantics_witness :
    ∃ ls, ReadOutcome.fileLines ["Age", "30"] = .fileLines ls ∧
      (([[("Age", Value.vint 30)]], ["Age"]) : List Record × List String) = load_data ls :=
  (claim9_load_failure_semantics "data.csv" "boom" (.fileLines ["Age", "30"])).2.2.2
    ([[("Age", Value.vint 30)]], ["Age"]) rfl

theorem length_filterMap_eq_length_filter {α β : Type} (f : α → Option β)
    (p : α → Bool) (h : ∀ a, (f a).isSome = p a) (l : List α) :
    (l.filterMap f).length = (l.filter p).length := by
  induction l with
  | nil => rfl
  | cons a t ih =>
      have ha := h a
      cases hfa : f a with
      | none =>
          rw [hfa] at ha
          simp only [Option.isSome_none] at ha
          rw [List.filterMap_cons_none hfa, List.filter_cons, ← ha]
          simpa using ih
      | some b =>
          rw [hfa] at ha
          simp only [Option.isSome_some] at ha
          rw [List.filterMap_cons_some hfa, List.filter_cons, ← ha]
          simpa using ih

/-- Claim C5: the loader types every cell independently by the trim, N/A
or empty to missing, Unknown kept, int-then-float-then-string policy, and
drops any data row whose column count differs from the header length; in
particular the two-column example file yields exactly the two expected
records, the row 25 being dropped; additionally every produced record has
exactly the header as its field names, and the number of records equals
the number of non-blank rows with a matching column count. -/
theorem claim5_loader_typing :
    load_data ["Age,Gender", "30,Male", "N/A,Female", "25"] =
      ([[("Age", Value.vint 30), ("Gender", Value.vstr "Male")],
        [("Age", Value.missing), ("Gender", Value.vstr "Female")]], ["Age", "Gender"]) ∧
    (∀ headerLine rest, ((load_data (headerLine :: rest)).1).length =
      (rest.filter (fun line => !(pytrim line == "") &&
        (((pysplitComma (pytrim line)).map pytrim).length ==
          ((pysplitComma (pytrim headerLine)).map pytrim).length))).length) ∧
    (∀ headerLine rest r, r ∈ (load_data (headerLine :: rest)).1 →
      r.map Prod.fst = (load_data (headerLine :: rest)).2) ∧
    _convert_to_appropriate_type " 30 " = .vint 30 ∧
    _convert_to_appropriate_type "N/A" = .missing ∧
    _convert_to_appropriate_type "" = .missing ∧
    _convert_to_appropriate_type "Unknown" = .vstr "Unknown" ∧
    _convert_to_appropriate_type "3.5" = .vfloat (7/2) ∧
    _convert_to_appropriate_type "Male" = .vstr "Male" := by
  refine ⟨by decide, ?_, ?_, by decide, by decide, by decide, by decide, ?_, by decide⟩
  · intro headerLine rest
    simp only [load_data]
    apply length_filterMap_eq_length_filter
    intro a
    by_cases h1 : pytrim a = ""
    · simp [h1]
    · by_cases h2 : (pysplitComma (pytrim a)).length =
          (pysplitComma (pytrim headerLine)).length
      · simp [h1, h2]
      · simp [h1, h2]
  · intro headerLine rest r hr
    simp only [load_data] at hr ⊢
    obtain ⟨a, ha, hfa⟩ := List.mem_filterMap.mp hr
    by_cases h1 : pytrim a = ""
    · rw [if_pos h1] at hfa
      exact absurd hfa (by simp)
    · rw [if_neg h1] at hfa
      by_cases h2 : ((pysplitComma (pytrim a)).map pytrim).length =
          ((pysplitComma (pytrim headerLine)).map pytrim).length
      · rw [if_pos h2] at hfa
        obtain rfl := Option.some.injEq _ _ ▸ hfa
        rw [List.map_map]
        have hcomp : (Prod.fst ∘ fun hv : String × String =>
            (hv.1, _convert_to_appropriate_type hv.2)) = Prod.fst := rfl
        rw [hcomp]
        exact List.map_fst_zip _ _ h2.ge
      · rw [if_neg h2] at hfa
        exact absurd hfa (by simp)
  · have h : _convert_to_appropriate_type "3.5" = .vfloat ((3 : ℚ) + 5 / 10 ^ 1) := rfl
    rw [h]
    norm_num

/-- Claim C5 witness: the field names of a record produced by the loader
are exactly the header, evaluated on a concrete two-line file. -/
theorem claim5_loader_typing_witness :
    ([("Age", Value.vint 30), ("Gender", Value.vstr "Male")] : Record).map Prod.fst =
      (load_data ["Age,Gender", "30,Male"]).2 :=
  claim5_loader_typing.2.2.1 "Age,Gender" ["30,Male"]
    [("Age", Value.vint 30), ("Gender", Value.vstr "Male")] (by decide)
